import Mathlib

/-!
Verification development for the eventual-backend repository.

The development shallowly embeds the core logic of the repository:
the `Event` model (`src/models/Event.js`), the `LoginLog` token-ledger
model (`src/models/LoginLog.js`), the JWT auth gate and the ownership
middleware (`src/config/passport.js`), and the `logout` route of
`src/routes/auth.js`.

Conventions of the embedding:
- JavaScript strings are `List Char`; `Date` values are `Int`
  milliseconds since the epoch; JS numbers used for coordinates and
  prices are `ℚ` (only order comparisons matter for the statements here).
- The email validation regex used by both models is embedded as a regex
  AST matched with Brzozowski derivatives, together with an inductive
  matching semantics and a soundness proof for the matcher.
- Mongoose `save()` first runs the path validators (on the modified
  paths; on all paths for a new document) and then the user-defined
  `pre-save` hooks, so the models below validate first and apply the
  hook afterwards.  Fallible saves return `Option`.
-/

/-! ## Regex engine (for the email validator of both models)

The validator in `Event.organizador` and `LoginLog.usuario` is
`/^\w+([\.-]?\w+)*@\w+([\.-]?\w+)*(\.\w{2,3})+$/`.
-/

inductive RE where
  | eps
  | cls (p : Char → Bool)
  | cat (a b : RE)
  | alt (a b : RE)
  | star (a : RE)

/-- The empty regex (matches nothing): a character class that accepts no character. -/
def emptyRE : RE := RE.cls (fun _ => false)

def nullable : RE → Bool
  | .eps => true
  | .cls _ => false
  | .cat a b => nullable a && nullable b
  | .alt a b => nullable a || nullable b
  | .star _ => true

def rderiv (c : Char) : RE → RE
  | .eps => emptyRE
  | .cls p => if p c then .eps else emptyRE
  | .cat a b =>
      if nullable a then .alt (.cat (rderiv c a) b) (rderiv c b)
      else .cat (rderiv c a) b
  | .alt a b => .alt (rderiv c a) (rderiv c b)
  | .star a => .cat (rderiv c a) (.star a)

def reMatch (r : RE) (s : List Char) : Bool :=
  nullable (s.foldl (fun r c => rderiv c r) r)

/-- Standard language semantics of the regex AST. -/
inductive RMatch : RE → List Char → Prop where
  | eps : RMatch .eps []
  | cls {p : Char → Bool} {c : Char} : p c = true → RMatch (.cls p) [c]
  | cat {a b : RE} {s t : List Char} :
      RMatch a s → RMatch b t → RMatch (.cat a b) (s ++ t)
  | altL {a b : RE} {s : List Char} : RMatch a s → RMatch (.alt a b) s
  | altR {a b : RE} {s : List Char} : RMatch b s → RMatch (.alt a b) s
  | starNil {a : RE} : RMatch (.star a) []
  | starCons {a : RE} {s t : List Char} :
      RMatch a s → RMatch (.star a) t → RMatch (.star a) (s ++ t)

theorem empty_no_match {s : List Char} : ¬ RMatch emptyRE s := by
  intro h
  cases h with
  | cls hp => simp at hp

theorem nullable_sound : ∀ r : RE, nullable r = true → RMatch r []
  | .eps, _ => .eps
  | .cls _, h => by simp [nullable] at h
  | .cat a b, h => by
      rw [nullable, Bool.and_eq_true] at h
      exact (List.nil_append (α := Char) []) ▸
        RMatch.cat (nullable_sound a h.1) (nullable_sound b h.2)
  | .alt a b, h => by
      rw [nullable, Bool.or_eq_true] at h
      cases h with
      | inl h => exact .altL (nullable_sound a h)
      | inr h => exact .altR (nullable_sound b h)
  | .star _, _ => .starNil

theorem deriv_sound (c : Char) :
    ∀ (r : RE) (s : List Char), RMatch (rderiv c r) s → RMatch r (c :: s) := by
  intro r
  induction r with
  | eps =>
      intro s h
      exact absurd h empty_no_match
  | cls p =>
      intro s h
      rw [rderiv] at h
      by_cases hp : p c = true
      · rw [if_pos hp] at h
        cases h
        exact .cls hp
      · rw [if_neg hp] at h
        exact absurd h empty_no_match
  | cat a b iha ihb =>
      intro s h
      rw [rderiv] at h
      by_cases hn : nullable a = true
      · rw [if_pos hn] at h
        cases h with
        | altL h =>
            cases h with
            | cat h1 h2 =>
                exact (List.cons_append _ _ _) ▸ RMatch.cat (iha _ h1) h2
        | altR h =>
            have h2 := RMatch.cat (nullable_sound a hn) (ihb _ h)
            rwa [List.nil_append] at h2
      · rw [if_neg hn] at h
        cases h with
        | cat h1 h2 =>
            exact (List.cons_append _ _ _) ▸ RMatch.cat (iha _ h1) h2
  | alt a b iha ihb =>
      intro s h
      rw [rderiv] at h
      cases h with
      | altL h => exact .altL (iha _ h)
      | altR h => exact .altR (ihb _ h)
  | star a iha =>
      intro s h
      rw [rderiv] at h
      cases h with
      | cat h1 h2 =>
          exact (List.cons_append _ _ _) ▸ RMatch.starCons (iha _ h1) h2

theorem reMatch_sound : ∀ (s : List Char) (r : RE), reMatch r s = true → RMatch r s
  | [], _, h => nullable_sound _ h
  | _ :: s, r, h => deriv_sound _ r s (reMatch_sound s (rderiv _ r) h)

/-! ## The email regex of the two models -/

/-- Class `\w`: a word character. -/
def isWordChar (c : Char) : Bool := c.isAlphanum || c == '_'

def wordC : RE := .cls isWordChar

/-- Class `[\.-]`: a dot or a hyphen. -/
def sepC : RE := .cls (fun c => c == '.' || c == '-')

def dotC : RE := .cls (fun c => c == '.')

def atC : RE := .cls (fun c => c == '@')

/-- Pattern `\w+`. -/
def wplus : RE := .cat wordC (.star wordC)

/-- Pattern `\w+([\.-]?\w+)*`, the name part used on both sides of the `@`. -/
def nameRE : RE := .cat wplus (.star (.cat (.alt .eps sepC) wplus))

/-- Pattern `\.\w{2,3}`: one dot-separated terminal label of two or three word characters. -/
def tldRE : RE := .cat dotC (.cat wordC (.cat wordC (.alt .eps wordC)))

/-- Pattern `^\w+([\.-]?\w+)*@\w+([\.-]?\w+)*(\.\w{2,3})+$`,
the validator regex of `Event.organizador` and `LoginLog.usuario`. -/
def emailRE : RE := .cat nameRE (.cat atC (.cat nameRE (.cat tldRE (.star tldRE))))

def emailMatch (s : List Char) : Bool := reMatch emailRE s

/-! ## Shape of strings accepted by the email regex (final label) -/

theorem tld_shape {u : List Char} (h : RMatch tldRE u) :
    ∃ lab : List Char, u = '.' :: lab ∧
      (lab.length = 2 ∨ lab.length = 3) ∧ ∀ c ∈ lab, isWordChar c = true := by
  cases h with
  | @cat _ _ s t hdot hrest =>
    cases hdot with
    | @cls _ c0 hc =>
      have hc1 : c0 = '.' := eq_of_beq hc
      subst hc1
      cases hrest with
      | @cat _ _ s2 t2 hw1 hrest2 =>
        cases hw1 with
        | @cls _ c1 hw1c =>
          cases hrest2 with
          | @cat _ _ s3 t3 hw2 hopt =>
            cases hw2 with
            | @cls _ c2 hw2c =>
              cases hopt with
              | altL heps =>
                cases heps
                refine ⟨[c1, c2], by simp, by simp, ?_⟩
                intro c hcm
                simp at hcm
                rcases hcm with rfl | rfl
                · exact hw1c
                · exact hw2c
              | altR hw3 =>
                cases hw3 with
                | @cls _ c3 hw3c =>
                  refine ⟨[c1, c2, c3], by simp, by simp, ?_⟩
                  intro c hcm
                  simp at hcm
                  rcases hcm with rfl | rfl | rfl
                  · exact hw1c
                  · exact hw2c
                  · exact hw3c

theorem star_tld_last {r : RE} {u : List Char} (h : RMatch r u) :
    r = RE.star tldRE →
    u = [] ∨ ∃ (pre lab : List Char), u = pre ++ '.' :: lab ∧
      (lab.length = 2 ∨ lab.length = 3) ∧ ∀ c ∈ lab, isWordChar c = true := by
  induction h with
  | eps => intro he; exact absurd he (by simp [tldRE])
  | cls _ => intro he; exact absurd he (by simp [tldRE])
  | cat _ _ _ _ => intro he; exact absurd he (by simp [tldRE])
  | altL _ _ => intro he; exact absurd he (by simp [tldRE])
  | altR _ _ => intro he; exact absurd he (by simp [tldRE])
  | starNil => intro _; exact Or.inl rfl
  | @starCons a s t h1 _ _ ih2 =>
      intro he
      injection he with ha
      subst ha
      rcases ih2 rfl with rfl | ⟨pre, lab, rfl, hlen, hword⟩
      · rcases tld_shape h1 with ⟨lab, rfl, hlen, hword⟩
        exact Or.inr ⟨[], lab, by simp, hlen, hword⟩
      · exact Or.inr ⟨s ++ pre, lab, by simp, hlen, hword⟩

theorem email_shape {s : List Char} (h : RMatch emailRE s) :
    ∃ (pre lab : List Char), s = pre ++ '.' :: lab ∧
      (lab.length = 2 ∨ lab.length = 3) ∧ ∀ c ∈ lab, isWordChar c = true := by
  rw [emailRE] at h
  cases h with
  | @cat _ _ n1 r1 hname hrest =>
    cases hrest with
    | @cat _ _ a1 r2 hat hrest2 =>
      cases hrest2 with
      | @cat _ _ n2 r3 hname2 htlds =>
        cases htlds with
        | @cat _ _ tl1 r4 htld hstar =>
          rcases star_tld_last hstar rfl with rfl | ⟨pre, lab, rfl, hlen, hword⟩
          · rcases tld_shape htld with ⟨lab, rfl, hlen, hword⟩
            exact ⟨n1 ++ (a1 ++ (n2 ++ [])), lab, by simp, hlen, hword⟩
          · exact ⟨n1 ++ (a1 ++ (n2 ++ (tl1 ++ pre))), lab, by simp, hlen, hword⟩

/-- The final domain label of a string: the characters after the last dot
(`none` when the string contains no dot). -/
def finalLabel (s : List Char) : Option (List Char) :=
  let r := s.reverse
  let lab := r.takeWhile (fun c => c != '.')
  if lab.length < r.length then some lab.reverse else none

/-- The string ends in a dot followed by a final label of exactly two or
three word characters. -/
def hasShortWordTld (s : List Char) : Bool :=
  match finalLabel s with
  | some lab => (lab.length == 2 || lab.length == 3) && lab.all isWordChar
  | none => false

theorem takeWhile_append_all {p : Char → Bool} {l : List Char} {a : Char}
    {t : List Char} (h : ∀ c ∈ l, p c = true) (ha : p a = false) :
    (l ++ a :: t).takeWhile p = l := by
  induction l with
  | nil => simp [List.takeWhile, ha]
  | cons x xs ih =>
      have hx : p x = true := h x (by simp)
      simp only [List.cons_append, List.takeWhile, hx, List.cons.injEq, true_and]
      exact ih (fun c hc => h c (by simp [hc]))

theorem email_has_short_tld {s : List Char} (h : emailMatch s = true) :
    hasShortWordTld s = true := by
  rcases email_shape (reMatch_sound s emailRE h) with ⟨pre, lab, rfl, hlen, hword⟩
  have hword' : ∀ c ∈ lab.reverse, (c != '.') = true := by
    intro c hc
    have hw := hword c (List.mem_reverse.mp hc)
    have hne : ¬ c = '.' := by
      intro he
      subst he
      exact absurd hw (by decide)
    simp [bne, hne]
  have hrev : (pre ++ '.' :: lab).reverse = lab.reverse ++ '.' :: pre.reverse := by
    simp
  have htake : ((pre ++ '.' :: lab).reverse).takeWhile (fun c => c != '.')
      = lab.reverse := by
    rw [hrev]
    exact takeWhile_append_all hword' (by decide)
  have hlt : (lab.reverse).length < ((pre ++ '.' :: lab).reverse).length := by
    simp
  rw [hasShortWordTld, finalLabel]
  simp only [htake, if_pos hlt, List.reverse_reverse]
  have hall : lab.all isWordChar = true := List.all_eq_true.mpr hword
  rcases hlen with h2 | h3
  · simp [h2, hall]
  · simp [h3, hall]

/-! ## Event model (`src/models/Event.js`) -/

inductive Categoria where
  | cultural | deportivo | musical | educativo | gastronomico | tecnologico | otro
deriving DecidableEq, Repr

structure Event where
  nombre : List Char
  timestamp : Int
  lugar : List Char
  lat : ℚ
  lon : ℚ
  organizador : List Char
  imagen : Option (List Char)
  descripcion : List Char
  categoria : Categoria
  precio : ℚ
  capacidad : Option Int
deriving DecidableEq, Repr

/-- Pattern `/^https?:\/\//`: the `imagen` validator. -/
def isHttpUrl (u : List Char) : Bool :=
  ['h', 't', 't', 'p', ':', '/', '/'].isPrefixOf u ||
  ['h', 't', 't', 'p', 's', ':', '/', '/'].isPrefixOf u

/-- All path validators of `eventSchema` (`required`, `maxLength`,
ranges, the future-timestamp validator and the email regex of
`organizador`).  They run on every `save()`: on a new document every
path is validated, and on a hydrated existing document every path is
initialized (and `timestamp` is `required`), so the same validators —
including the future-timestamp check — run again on update. -/
def validateEventAll (e : Event) (now : Int) : Bool :=
  (!e.nombre.isEmpty && decide (e.nombre.length ≤ 200)) &&
  decide (now < e.timestamp) &&
  (!e.lugar.isEmpty && decide (e.lugar.length ≤ 500)) &&
  (decide ((-90 : ℚ) ≤ e.lat) && decide (e.lat ≤ 90)) &&
  (decide ((-180 : ℚ) ≤ e.lon) && decide (e.lon ≤ 180)) &&
  (!e.organizador.isEmpty && emailMatch e.organizador) &&
  (match e.imagen with
   | none => true
   | some u => isHttpUrl u) &&
  decide (e.descripcion.length ≤ 2000) &&
  decide (0 ≤ e.precio) &&
  (match e.capacidad with
   | none => true
   | some cap => decide (1 ≤ cap))

/-- Saving a new event: validation of every path, then the
`pre-save` hook, which rejects a non-future `timestamp` when
`isNew` holds. -/
def createEvent (e : Event) (now : Int) : Option Event :=
  if validateEventAll e now then
    if decide (e.timestamp ≤ now) then none else some e
  else none

/-- The fields assigned by the `PUT /api/events/:id` route handler; a
present field marks the corresponding path as modified. -/
structure EventPatch where
  nombre : Option (List Char) := none
  timestamp : Option Int := none
  lugar : Option (List Char × ℚ × ℚ) := none
  descripcion : Option (List Char) := none
  categoria : Option Categoria := none
  precio : Option ℚ := none
  capacidad : Option (Option Int) := none
  imagen : Option (List Char) := none
deriving DecidableEq, Repr

def applyPatch (e : Event) (p : EventPatch) : Event :=
  { nombre := p.nombre.getD e.nombre
    timestamp := p.timestamp.getD e.timestamp
    lugar := (p.lugar.map (·.1)).getD e.lugar
    lat := (p.lugar.map (fun x => x.2.1)).getD e.lat
    lon := (p.lugar.map (fun x => x.2.2)).getD e.lon
    organizador := e.organizador
    imagen := (p.imagen.map some).getD e.imagen
    descripcion := p.descripcion.getD e.descripcion
    categoria := p.categoria.getD e.categoria
    precio := p.precio.getD e.precio
    capacidad := p.capacidad.getD e.capacidad }

/-- Saving an existing event after the route handler applied a patch:
`save()` re-runs the path validators on the hydrated document (every
path is initialized, so all validators run, including the
future-timestamp validator on the effective `timestamp`); the
`pre-save` hook passes because `isNew` is false. -/
def updateEvent (e : Event) (p : EventPatch) (now : Int) : Option Event :=
  let e2 := applyPatch e p
  if validateEventAll e2 now then some e2 else none

/-! ### `findNearby` (`eventSchema.statics.findNearby`) -/

def nearbyPred (lat lon maxDistance : ℚ) (now : Int) (e : Event) : Bool :=
  decide (lat - maxDistance ≤ e.lat) && decide (e.lat ≤ lat + maxDistance) &&
  decide (lon - maxDistance ≤ e.lon) && decide (e.lon ≤ lon + maxDistance) &&
  decide (now ≤ e.timestamp)

/-- Model of the sort by timestamp ascending: a stable insertion sort. -/
def insertByTs (e : Event) : List Event → List Event
  | [] => [e]
  | x :: xs => if e.timestamp ≤ x.timestamp then e :: x :: xs else x :: insertByTs e xs

def sortByTs : List Event → List Event
  | [] => []
  | x :: xs => insertByTs x (sortByTs xs)

/-- Model of `findNearby(lat, lon, maxDistance = 0.2)` over the collection of
events: the bounding-box filter intersected with `timestamp ≥ now`,
sorted ascending by `timestamp`. -/
def findNearby (events : List Event) (now : Int) (lat lon : ℚ)
    (maxDistance : ℚ := 0.2) : List Event :=
  sortByTs (events.filter (nearbyPred lat lon maxDistance now))

/-! ## LoginLog model (`src/models/LoginLog.js`) -/

inductive Provider where
  | google | facebook | local
deriving DecidableEq, Repr

inductive LoginType where
  | login | refresh | logout
deriving DecidableEq, Repr

structure LoginLogEntry where
  timestamp : Int
  usuario : List Char
  caducidad : Int
  token : List Char
  provider : Provider
  userAgent : List Char
  ipAddress : List Char
  loginType : LoginType
deriving DecidableEq, Repr

/-- Thirty days in milliseconds, the bound of the pre-save clamp. -/
def maxTokenLifeMs : Int := 30 * 24 * 60 * 60 * 1000

/-- The path validators of `loginLogSchema`: `usuario` is required and
must match the email regex, `caducidad` must be strictly after
`timestamp`, `token` is required (non-empty). -/
def validLoginLog (e : LoginLogEntry) : Bool :=
  (!e.usuario.isEmpty && emailMatch e.usuario) &&
  decide (e.timestamp < e.caducidad) &&
  !e.token.isEmpty

/-- The `pre-save` hook: clamp `caducidad` to at most
`timestamp + 30 days`. -/
def clampCaducidad (e : LoginLogEntry) : LoginLogEntry :=
  if decide (e.timestamp + maxTokenLifeMs < e.caducidad) then
    { e with caducidad := e.timestamp + maxTokenLifeMs }
  else e

/-- Model of `save()` on a new ledger entry: validators first, then the clamp hook. -/
def saveLoginLog (e : LoginLogEntry) : Option LoginLogEntry :=
  if validLoginLog e then some (clampCaducidad e) else none

/-- The entry built by the login/refresh paths
(`src/config/passport.js` Google callback, `POST /refresh`):
`caducidad = now + ttl`. -/
def issueEntry (user token : List Char) (prov : Provider) (lt : LoginType)
    (ua ip : List Char) (now ttl : Int) : LoginLogEntry :=
  { timestamp := now, usuario := user, caducidad := now + ttl, token := token
    provider := prov, userAgent := ua, ipAddress := ip, loginType := lt }

/-- Appending an issued entry to the ledger; `false` marks a failed save. -/
def issue (ledger : List LoginLogEntry) (user token : List Char)
    (prov : Provider) (lt : LoginType) (ua ip : List Char) (now ttl : Int) :
    List LoginLogEntry × Bool :=
  match saveLoginLog (issueEntry user token prov lt ua ip now ttl) with
  | some e => (ledger ++ [e], true)
  | none => (ledger, false)

/-- The entry built by `POST /logout` (`src/routes/auth.js`): a
`logout`-type entry with `caducidad = new Date()` at the same instant as
the defaulted `timestamp`. -/
def logoutEntry (user token : List Char) (prov : Provider)
    (ua ip : List Char) (now : Int) : LoginLogEntry :=
  { timestamp := now, usuario := user, caducidad := now, token := token
    provider := prov, userAgent := ua, ipAddress := ip, loginType := .logout }

/-- Model of `POST /logout`: attempt to append the logout entry; `false` marks a
failed save (the route then answers 500 and the ledger is unchanged). -/
def revoke (ledger : List LoginLogEntry) (user token : List Char)
    (prov : Provider) (ua ip : List Char) (now : Int) :
    List LoginLogEntry × Bool :=
  match saveLoginLog (logoutEntry user token prov ua ip now) with
  | some e => (ledger ++ [e], true)
  | none => (ledger, false)

/-- Model of `cleanExpiredTokens`, a deleteMany of the expired entries,
returning the remaining ledger and the deleted count. -/
def cleanExpiredTokens (ledger : List LoginLogEntry) (now : Int) :
    List LoginLogEntry × Nat :=
  ((ledger.filter fun e => !decide (e.caducidad < now)),
   (ledger.filter fun e => decide (e.caducidad < now)).length)

/-! ### Serialization (`toJSON` transform of `loginLogSchema`) -/

structure LoginLogJSON where
  timestamp : Int
  usuario : List Char
  caducidad : Int
  provider : Provider
  userAgent : List Char
  ipAddress : List Char
  loginType : LoginType
  token : Option (List Char)
  tokenPreview : Option (List Char)
deriving DecidableEq, Repr

/-- The `toJSON` transform: when `ret.token` is truthy (non-empty) the
raw token is deleted and replaced by `token.substring(0, 10)` plus an
ellipsis. -/
def loginLogToJSON (e : LoginLogEntry) : LoginLogJSON :=
  if !e.token.isEmpty then
    { timestamp := e.timestamp, usuario := e.usuario, caducidad := e.caducidad
      provider := e.provider, userAgent := e.userAgent, ipAddress := e.ipAddress
      loginType := e.loginType, token := none
      tokenPreview := some (e.token.take 10 ++ ['.', '.', '.']) }
  else
    { timestamp := e.timestamp, usuario := e.usuario, caducidad := e.caducidad
      provider := e.provider, userAgent := e.userAgent, ipAddress := e.ipAddress
      loginType := e.loginType, token := some e.token, tokenPreview := none }

/-! ## Auth gate (`src/config/passport.js`) -/

/-- A structurally valid bearer credential: the JWT signature and its own
expiry were already checked by the strategy; the payload carries the
email, and `raw` is the presented token string. -/
structure Credential where
  email : List Char
  raw : List Char
deriving DecidableEq, Repr

/-- The JWT strategy verify callback:
`LoginLog.findOne({ usuario: email, caducidad: { $gt: now } })`,
accepting iff a matching entry exists. -/
def jwtLedgerCheck (ledger : List LoginLogEntry) (email : List Char)
    (now : Int) : Bool :=
  (ledger.find? fun e => e.usuario == email && decide (now < e.caducidad)).isSome

/-- The auth gate decision for a structurally valid credential: only the
payload email is consulted, never the presented token string. -/
def authGate (ledger : List LoginLogEntry) (c : Credential) (now : Int) : Bool :=
  jwtLedgerCheck ledger c.email now

/-! ## Ownership middleware and mutation routes
(`requireEventOwnership` in `src/config/passport.js`,
`PUT /api/events/:id` and `DELETE /api/events/:id`) -/

inductive RouteError where
  | notFound | forbidden | validationError
deriving DecidableEq, Repr

def findById (store : List (Nat × Event)) (eid : Nat) : Option Event :=
  (store.find? fun q => q.1 == eid).map (·.2)

/-- Model of `PUT /api/events/:id` behind `requireAuth` and
`requireEventOwnership`: 404 when absent, 403 on organizer mismatch,
otherwise patch and save.  The untouched store is returned alongside the
result on every rejection. -/
def updateRoute (store : List (Nat × Event)) (eid : Nat) (email : List Char)
    (p : EventPatch) (now : Int) :
    Except RouteError Event × List (Nat × Event) :=
  match findById store eid with
  | none => (.error .notFound, store)
  | some e =>
    if e.organizador ≠ email then (.error .forbidden, store)
    else
      match updateEvent e p now with
      | none => (.error .validationError, store)
      | some e2 => (.ok e2, store.map fun q => if q.1 == eid then (q.1, e2) else q)

/-- Model of `DELETE /api/events/:id` behind the same middleware chain. -/
def deleteRoute (store : List (Nat × Event)) (eid : Nat) (email : List Char) :
    Except RouteError Event × List (Nat × Event) :=
  match findById store eid with
  | none => (.error .notFound, store)
  | some e =>
    if e.organizador ≠ email then (.error .forbidden, store)
    else (.ok e, store.filter fun q => !(q.1 == eid))

/-! ## Sorting lemmas for `findNearby` -/

theorem mem_insertByTs {a e : Event} {l : List Event} :
    a ∈ insertByTs e l ↔ a = e ∨ a ∈ l := by
  induction l with
  | nil => simp [insertByTs]
  | cons x xs ih =>
      rw [insertByTs]
      split
      · simp
      · simp only [List.mem_cons, ih]
        tauto

theorem pairwise_insertByTs {e : Event} {l : List Event}
    (h : l.Pairwise fun a b => a.timestamp ≤ b.timestamp) :
    (insertByTs e l).Pairwise fun a b => a.timestamp ≤ b.timestamp := by
  induction l with
  | nil => simp [insertByTs]
  | cons x xs ih =>
      rw [insertByTs]
      rw [List.pairwise_cons] at h
      split
      · rename_i hle
        rw [List.pairwise_cons]
        refine ⟨?_, List.pairwise_cons.mpr h⟩
        intro b hb
        rcases List.mem_cons.mp hb with rfl | hb
        · exact hle
        · exact le_trans hle (h.1 b hb)
      · rename_i hgt
        rw [List.pairwise_cons]
        refine ⟨?_, ih h.2⟩
        intro b hb
        rcases mem_insertByTs.mp hb with rfl | hb
        · exact le_of_not_le hgt
        · exact h.1 b hb

theorem pairwise_sortByTs (l : List Event) :
    (sortByTs l).Pairwise fun a b => a.timestamp ≤ b.timestamp := by
  induction l with
  | nil => simp [sortByTs]
  | cons x xs ih =>
      rw [sortByTs]
      exact pairwise_insertByTs ih

theorem mem_sortByTs {a : Event} {l : List Event} : a ∈ sortByTs l ↔ a ∈ l := by
  induction l with
  | nil => simp [sortByTs]
  | cons x xs ih =>
      rw [sortByTs, mem_insertByTs]
      simp [ih]

/-! ## C1 -/

/-- C1: every event returned by `findNearby(lat, lon, r)` has its `lat`
in `[lat - r, lat + r]`, its `lon` in `[lon - r, lon + r]` and its
`timestamp ≥` the instant of the query, and the returned events are
ordered ascending by `timestamp`. -/
theorem findNearby_bbox_future_sorted (events : List Event)
    (lat lon r : ℚ) (now : Int) :
    (∀ e ∈ findNearby events now lat lon r,
      lat - r ≤ e.lat ∧ e.lat ≤ lat + r ∧ lon - r ≤ e.lon ∧ e.lon ≤ lon + r ∧
      now ≤ e.timestamp) ∧
    (findNearby events now lat lon r).Pairwise
      (fun a b => a.timestamp ≤ b.timestamp) := by
  constructor
  · intro e he
    rw [findNearby, mem_sortByTs] at he
    have hp := (List.mem_filter.mp he).2
    rw [nearbyPred] at hp
    simp only [Bool.and_eq_true, decide_eq_true_eq] at hp
    exact ⟨hp.1.1.1.1, hp.1.1.1.2, hp.1.1.2, hp.1.2, hp.2⟩
  · exact pairwise_sortByTs _

def evNear : Event :=
  { nombre := ['F'], timestamp := 1000, lugar := ['x'], lat := 40, lon := -3
    organizador := ['a', '@', 'b', '.', 'c', 'o'], imagen := none
    descripcion := [], categoria := .otro, precio := 0, capacidad := none }

theorem findNearby_bbox_future_sorted_witness :
    (40 : ℚ) - 0 ≤ evNear.lat ∧ evNear.lat ≤ 40 + 0 ∧
    (-3 : ℚ) - 0 ≤ evNear.lon ∧ evNear.lon ≤ -3 + 0 ∧
    (5 : Int) ≤ evNear.timestamp :=
  (findNearby_bbox_future_sorted [evNear] 40 (-3) 0 5).1 evNear
    (mem_sortByTs.mpr (List.mem_filter.mpr
      ⟨by simp, by simp [nearbyPred, evNear]⟩))

/-! ## Shared concrete values for witnesses -/

def uAbco : List Char := ['a', '@', 'b', '.', 'c', 'o']

def uInfo : List Char := ['a', '@', 'b', '.', 'i', 'n', 'f', 'o']

def entLive : LoginLogEntry :=
  { timestamp := 0, usuario := uAbco, caducidad := 100, token := ['t']
    provider := .google, userAgent := [], ipAddress := [], loginType := .login }

def entOld : LoginLogEntry :=
  { timestamp := 0, usuario := uAbco, caducidad := 3, token := ['t']
    provider := .google, userAgent := [], ipAddress := [], loginType := .login }

def entBig : LoginLogEntry :=
  { timestamp := 0, usuario := uAbco, caducidad := 9000000000000, token := ['t']
    provider := .google, userAgent := [], ipAddress := [], loginType := .login }

/-! ## C2 -/

/-- C2: for a structurally valid credential, the auth gate accepts iff
some ledger entry exists for the payload email with `caducidad` strictly
after now — any live entry for that email, regardless of the presented
token string, whose value the decision never reads. -/
theorem authGate_any_live_entry (ledger : List LoginLogEntry)
    (c : Credential) (now : Int) :
    (authGate ledger c now = true ↔
      ∃ e ∈ ledger, e.usuario = c.email ∧ now < e.caducidad) ∧
    (∀ raw, authGate ledger { email := c.email, raw := raw } now
        = authGate ledger c now) := by
  constructor
  · rw [authGate, jwtLedgerCheck, List.find?_isSome]
    constructor
    · rintro ⟨e, he, hp⟩
      rw [Bool.and_eq_true, beq_iff_eq, decide_eq_true_eq] at hp
      exact ⟨e, he, hp.1, hp.2⟩
    · rintro ⟨e, he, h1, h2⟩
      refine ⟨e, he, ?_⟩
      rw [Bool.and_eq_true, beq_iff_eq, decide_eq_true_eq]
      exact ⟨h1, h2⟩
  · intro raw
    rfl

theorem authGate_any_live_entry_witness :
    authGate [entLive] { email := uAbco, raw := [] } 50 = true :=
  (authGate_any_live_entry [entLive] { email := uAbco, raw := [] } 50).1.mpr
    ⟨entLive, by simp, rfl, by decide⟩

/-! ## C3 -/

/-- C3: a ledger entry written with requested expiry duration `ttl`
stores `caducidad = min(timestamp + ttl, timestamp + 30 days)`: a `ttl`
beyond 30 days is clamped to exactly `timestamp + 30d`, and `ttl = 48h`
is stored unclamped. -/
theorem saveLoginLog_clamps_to_min (user token : List Char)
    (prov : Provider) (lt : LoginType) (ua ip : List Char) (now ttl : Int)
    (h1 : 0 < ttl) (h2 : emailMatch user = true) (h3 : token ≠ []) :
    saveLoginLog (issueEntry user token prov lt ua ip now ttl)
      = some { issueEntry user token prov lt ua ip now ttl with
               caducidad := min (now + ttl) (now + maxTokenLifeMs) } ∧
    (maxTokenLifeMs < ttl →
      min (now + ttl) (now + maxTokenLifeMs) = now + maxTokenLifeMs) ∧
    (ttl = 48 * 60 * 60 * 1000 →
      min (now + ttl) (now + maxTokenLifeMs) = now + ttl) := by
  refine ⟨?_, by omega, ?_⟩
  · have hUser : user.isEmpty = false := by
      cases user with
      | nil => exact absurd h2 (by decide)
      | cons a l => rfl
    have hTok : token.isEmpty = false := by
      cases token with
      | nil => exact absurd rfl h3
      | cons a l => rfl
    have hv : validLoginLog (issueEntry user token prov lt ua ip now ttl) = true := by
      rw [validLoginLog]
      simp only [issueEntry, hUser, hTok, h2, Bool.not_false, Bool.and_true, Bool.true_and]
      simp only [decide_eq_true_eq]
      omega
    rw [saveLoginLog, if_pos hv, clampCaducidad]
    simp only [issueEntry]
    split
    · rename_i hlt
      simp only [decide_eq_true_eq] at hlt
      have hm : min (now + ttl) (now + maxTokenLifeMs) = now + maxTokenLifeMs := by
        omega
      rw [hm]
    · rename_i hge
      simp only [decide_eq_true_eq] at hge
      have hm : min (now + ttl) (now + maxTokenLifeMs) = now + ttl := by
        omega
      rw [hm]
  · intro h48
    have : ttl ≤ maxTokenLifeMs := by
      rw [h48, maxTokenLifeMs]
      omega
    omega

theorem saveLoginLog_clamps_to_min_witness :
    saveLoginLog (issueEntry uAbco ['t'] .google .login [] [] 0 172800000)
      = some { issueEntry uAbco ['t'] .google .login [] [] 0 172800000 with
               caducidad := min ((0 : Int) + 172800000) (0 + maxTokenLifeMs) } ∧
    (maxTokenLifeMs < 172800000 →
      min ((0 : Int) + 172800000) (0 + maxTokenLifeMs) = 0 + maxTokenLifeMs) ∧
    ((172800000 : Int) = 48 * 60 * 60 * 1000 →
      min ((0 : Int) + 172800000) (0 + maxTokenLifeMs) = 0 + 172800000) :=
  saveLoginLog_clamps_to_min uAbco ['t'] .google .login [] [] 0 172800000
    (by decide) (by decide) (by decide)

/-! ## C5 -/

/-- C5 (code bug): the `POST /logout` entry has
`caducidad = timestamp = now`, which the strict
`caducidad > timestamp` validator of the model rejects, so `revoke`
always fails its save: no entry is appended and the ledger is returned
unchanged with the failure flag (the route answers 500). -/
theorem revoke_always_fails_validation (ledger : List LoginLogEntry)
    (user token : List Char) (prov : Provider) (ua ip : List Char)
    (now : Int) :
    revoke ledger user token prov ua ip now = (ledger, false) := by
  rw [revoke]
  have hv : validLoginLog (logoutEntry user token prov ua ip now) = false := by
    rw [validLoginLog]
    simp [logoutEntry]
  rw [saveLoginLog, hv]
  rfl

/-! ## C6 -/

/-- C6: every successfully stored ledger entry satisfies
`caducidad > timestamp`, and appending the stored entry preserves the
ledger-wide invariant — including entries whose requested expiry was
clamped to `timestamp + 30 days`. -/
theorem ledger_expiry_invariant (L : List LoginLogEntry)
    (e e2 : LoginLogEntry)
    (hL : ∀ x ∈ L, x.timestamp < x.caducidad)
    (h : saveLoginLog e = some e2) :
    ∀ x ∈ L ++ [e2], x.timestamp < x.caducidad := by
  intro x hx
  rcases List.mem_append.mp hx with hx | hx
  · exact hL x hx
  · rw [List.mem_singleton] at hx
    subst hx
    rw [saveLoginLog] at h
    by_cases hv : validLoginLog e = true
    · rw [if_pos hv] at h
      injection h with h
      subst h
      rw [validLoginLog] at hv
      simp only [Bool.and_eq_true, decide_eq_true_eq] at hv
      rw [clampCaducidad]
      split
      · dsimp only
        rw [maxTokenLifeMs]
        omega
      · exact hv.1.2
    · rw [if_neg hv] at h
      cases h

theorem ledger_expiry_invariant_witness :
    (clampCaducidad entBig).timestamp < (clampCaducidad entBig).caducidad :=
  ledger_expiry_invariant [] entBig (clampCaducidad entBig)
    (by simp) (by decide) (clampCaducidad entBig) (by simp)

/-! ## C7 -/

/-- C7: `cleanExpiredTokens` removes exactly the entries with
`caducidad < now` (the survivors are the in-order sublist of the others,
each unchanged), reports the number removed, and a second call with the
same `now` removes zero entries and changes nothing. -/
theorem cleanExpired_exact_and_idempotent (L : List LoginLogEntry)
    (now : Int) :
    (∀ e ∈ L, e ∈ (cleanExpiredTokens L now).1 ↔ ¬ e.caducidad < now) ∧
    List.Sublist (cleanExpiredTokens L now).1 L ∧
    (cleanExpiredTokens L now).2
      = (L.filter fun e => decide (e.caducidad < now)).length ∧
    cleanExpiredTokens (cleanExpiredTokens L now).1 now
      = ((cleanExpiredTokens L now).1, 0) := by
  refine ⟨?_, List.filter_sublist L, rfl, ?_⟩
  · intro e he
    rw [cleanExpiredTokens]
    simp [List.mem_filter, he]
  · have h1 : ((L.filter fun e => !decide (e.caducidad < now)).filter
        fun e => !decide (e.caducidad < now))
        = L.filter fun e => !decide (e.caducidad < now) :=
      List.filter_eq_self.mpr fun a ha => (List.mem_filter.mp ha).2
    have h2 : ((L.filter fun e => !decide (e.caducidad < now)).filter
        fun e => decide (e.caducidad < now)) = [] := by
      rw [List.filter_eq_nil_iff]
      intro a ha
      have hk := (List.mem_filter.mp ha).2
      simp only [Bool.not_eq_true'] at hk
      simp [hk]
    rw [cleanExpiredTokens, cleanExpiredTokens, h1, h2]
    rfl

theorem cleanExpired_exact_and_idempotent_witness :
    entLive ∈ (cleanExpiredTokens [entOld, entLive] 50).1 ↔
      ¬ entLive.caducidad < 50 :=
  (cleanExpired_exact_and_idempotent [entOld, entLive] 50).1 entLive (by simp)

/-! ## C4 -/

def evBase : Event :=
  { nombre := ['E'], timestamp := 10000, lugar := ['x'], lat := 0, lon := 0
    organizador := uAbco, imagen := none, descripcion := [], categoria := .otro
    precio := 0, capacidad := none }

/-- C4 counterexample: patching the timestamp of an existing, otherwise
valid event to the update instant itself (an instant not in the future)
makes the save fail — the future-timestamp field validator re-runs on
the modified path, so the update does not succeed. -/
theorem update_past_timestamp_rejected :
    updateEvent evBase { timestamp := some 5000 } 5000 = none := by decide

/-- C4 (amended): updating an event re-runs the must-be-future
timestamp validator — `save()` validates the hydrated document, on which
`timestamp` is an initialized required path — so an update whose
effective `timestamp` (patched or stored) is at or before the update
instant fails with a validation error; only the `pre-save` past-date
hook is restricted to creation. -/
theorem update_rechecks_timestamp (e : Event) (p : EventPatch)
    (now t : Int) (hp : p.timestamp = some t) (hle : t ≤ now) :
    updateEvent e p now = none := by
  have hts : (applyPatch e p).timestamp = t := by
    rw [applyPatch]
    simp [hp]
  have hnow : ¬ now < (applyPatch e p).timestamp := by
    rw [hts]
    omega
  have hval : validateEventAll (applyPatch e p) now = false := by
    rw [validateEventAll]
    simp [hnow]
  simp only [updateEvent]
  rw [hval]
  rfl

theorem update_rechecks_timestamp_witness :
    updateEvent evBase { timestamp := some 4000 } 6000 = none :=
  update_rechecks_timestamp evBase { timestamp := some 4000 } 6000 4000
    rfl (by decide)

/-! ## C8 -/

def entShortTok : LoginLogEntry :=
  { timestamp := 0, usuario := uAbco, caducidad := 100, token := ['a', 'b', 'c']
    provider := .google, userAgent := [], ipAddress := [], loginType := .login }

/-- C8 counterexample: a stored non-empty 3-character token appears in
full as a contiguous substring of the serialized `tokenPreview` field
(`substring(0, 10)` of a short token is the whole token). -/
theorem toJSON_short_token_leaks :
    entShortTok.token ≠ [] ∧
    (loginLogToJSON entShortTok).tokenPreview
      = some ['a', 'b', 'c', '.', '.', '.'] ∧
    entShortTok.token <:+: ['a', 'b', 'c', '.', '.', '.'] :=
  ⟨by decide, rfl, ⟨[], ['.', '.', '.'], rfl⟩⟩

/-- C8 (amended): serializing an entry with a non-empty token omits the
raw token field and offers only `tokenPreview`, the first 10 characters
followed by an ellipsis; the stored token never occurs as a contiguous
substring of `tokenPreview` provided the token is longer than the
13-character preview — for tokens of at most 10 characters the preview
contains the full token, so the blanket never-contains-token claim
fails. -/
theorem toJSON_redacts_long_tokens (e : LoginLogEntry) (h : e.token ≠ []) :
    (loginLogToJSON e).token = none ∧
    (loginLogToJSON e).tokenPreview
      = some (e.token.take 10 ++ ['.', '.', '.']) ∧
    (13 < e.token.length → ∀ pv,
      (loginLogToJSON e).tokenPreview = some pv → ¬ e.token <:+: pv) := by
  have hne : e.token.isEmpty = false := by
    cases htk : e.token with
    | nil => exact absurd htk h
    | cons a l => rfl
  rw [loginLogToJSON, hne]
  refine ⟨rfl, rfl, ?_⟩
  intro hlen pv hpv hinf
  injection hpv with hpv
  subst hpv
  have hl := hinf.length_le
  rw [List.length_append, List.length_take] at hl
  simp at hl
  omega

def entLongTok : LoginLogEntry :=
  { timestamp := 0, usuario := uAbco, caducidad := 100
    token := ['q', 'w', 'e', 'r', 't', 'y', 'u', 'i', 'o', 'p', '1', '2', '3', '4']
    provider := .google, userAgent := [], ipAddress := [], loginType := .login }

theorem toJSON_redacts_long_tokens_witness :
    (loginLogToJSON entLongTok).token = none ∧
    (loginLogToJSON entLongTok).tokenPreview
      = some (entLongTok.token.take 10 ++ ['.', '.', '.']) :=
  ⟨(toJSON_redacts_long_tokens entLongTok (by decide)).1,
   (toJSON_redacts_long_tokens entLongTok (by decide)).2.1⟩

/-! ## C9 -/

/-- C9: update and delete of an existing event by a caller whose email
differs from the organizer of the event both answer Forbidden and return the
store entirely unchanged; when the event does not exist both answer
NotFound, also leaving the store unchanged. -/
theorem ownership_forbidden_or_notfound (store : List (Nat × Event))
    (eid : Nat) (email : List Char) (p : EventPatch) (now : Int) :
    (findById store eid = none →
      updateRoute store eid email p now = (.error .notFound, store) ∧
      deleteRoute store eid email = (.error .notFound, store)) ∧
    (∀ e, findById store eid = some e → e.organizador ≠ email →
      updateRoute store eid email p now = (.error .forbidden, store) ∧
      deleteRoute store eid email = (.error .forbidden, store)) := by
  constructor
  · intro h
    rw [updateRoute, deleteRoute, h]
    exact ⟨rfl, rfl⟩
  · intro e h hne
    simp only [updateRoute, deleteRoute, h]
    rw [if_pos hne, if_pos hne]
    exact ⟨rfl, rfl⟩

theorem ownership_forbidden_or_notfound_witness :
    updateRoute [(1, evBase)] 1 ['z'] {} 0
      = (.error .forbidden, [(1, evBase)]) ∧
    deleteRoute [(1, evBase)] 1 ['z']
      = (.error .forbidden, [(1, evBase)]) :=
  (ownership_forbidden_or_notfound [(1, evBase)] 1 ['z'] {} 0).2 evBase
    (by decide) (by decide)

/-! ## C10 -/

def llInfo : LoginLogEntry :=
  { timestamp := 0, usuario := uInfo, caducidad := 100, token := ['t']
    provider := .google, userAgent := [], ipAddress := [], loginType := .login }

/-- C10: the email validator of `Event.organizador` and
`LoginLog.usuario` accepts only strings whose final domain label is
exactly two or three word characters, so an otherwise well-formed
address with a longer TLD, such as `a@b.info`, fails the regex and both
event creation and ledger-entry creation reject it with a validation
error. -/
theorem email_requires_short_tld (s : List Char)
    (h : emailMatch s = true) :
    hasShortWordTld s = true ∧
    emailMatch uInfo = false ∧
    createEvent { evBase with organizador := uInfo } 1 = none ∧
    saveLoginLog llInfo = none :=
  ⟨email_has_short_tld h, by decide, by decide, by decide⟩

theorem email_requires_short_tld_witness :
    hasShortWordTld uAbco = true ∧
    emailMatch uInfo = false ∧
    createEvent { evBase with organizador := uInfo } 1 = none ∧
    saveLoginLog llInfo = none :=
  email_requires_short_tld uAbco (by decide)
